import Mathlib

/-!
Verification of the opentrade execution core (src/src/opentrade/algo.h).

Shallow embedding conventions:
- C++ integral id types (DataSrc::IdType, Security::IdType, Algo::IdType, size_t)
  are embedded as Nat; none of the verified properties involve overflow.
- C++ double quantities are embedded as exact rationals.
- Pointers that may be null are embedded as Option; dereferencing none models a
  null-pointer dereference.
- The tbb concurrent_unordered_map md_refs_ is embedded as an association list;
  operator[] materializes a value-initialized (zero) entry for an absent key.
- Code of the repository that is not under src (function bodies of Algo::Subscribe,
  Algo::Stop, AlgoManager posting and strand execution) is modelled from the spec;
  each such definition says so in its doc comment.
-/

namespace Opentrade

abbrev DataSrcId := Nat

abbrev SecurityId := Nat

/-- Key of the md_refs_ tables: a (data source, security) pair, as in
std::pair of DataSrc::IdType and Security::IdType at src lines 200-202. -/
abbrev MdKey := DataSrcId × SecurityId

/-- Association-list embedding of the concurrent map md_refs_ from (source, security)
pairs to unsigned ref-counts (src lines 200-202). -/
abbrev MdRefs := List (MdKey × Nat)

/-- Observable ref-count of a key: the value of the first entry with that key, an
absent key counting as zero (value initialization of the mapped uint32). -/
def mdLookup (m : MdRefs) (k : MdKey) : Nat :=
  match m with
  | [] => 0
  | e :: rest => if e.1 = k then e.2 else mdLookup rest k

/-- Whether the map holds an entry for the key. -/
def mdContains (m : MdRefs) (k : MdKey) : Bool :=
  match m with
  | [] => false
  | e :: rest => e.1 = k || mdContains rest k

/-- Embeds operator[] of tbb concurrent_unordered_map as used by md_refs_: reads the
stored value for the key, first materializing a value-initialized (zero) entry when
the key is absent; returns the read value and the possibly extended map. -/
def mdIndex (m : MdRefs) (k : MdKey) : Nat × MdRefs :=
  if mdContains m k then (mdLookup m k, m) else (0, m ++ [(k, 0)])

/-- Embeds AlgoManager::IsSubscribed (src lines 184-186):
return md_refs_[std::make_pair(src, id)] > 0; the second component is the map state
after the indexing operation. -/
def IsSubscribed (m : MdRefs) (src : DataSrcId) (sid : SecurityId) : Bool × MdRefs :=
  let r := mdIndex m (src, sid)
  (decide (0 < r.1), r.2)

/-- Embeds prefix increment of md_refs_[k]: materialize the entry, then add one to the
first entry holding the key. -/
def incRef (m : MdRefs) (k : MdKey) : MdRefs :=
  match m with
  | [] => [(k, 1)]
  | e :: rest => if e.1 = k then (e.1, e.2 + 1) :: rest else e :: incRef rest k

/-- Embeds decrement of md_refs_[k] on release of a subscription: subtract one from the
first entry holding the key (appending a zero entry when absent, as operator[] does;
in valid histories the decrement only ever hits a positive count). -/
def decRef (m : MdRefs) (k : MdKey) : MdRefs :=
  match m with
  | [] => [(k, 0)]
  | e :: rest => if e.1 = k then (e.1, e.2 - 1) :: rest else e :: decRef rest k

/-- Number of live Instruments on a given (source, security) pair, the list holding one
entry per live Instrument. -/
def liveCount (l : List MdKey) (k : MdKey) : Nat :=
  match l with
  | [] => 0
  | x :: rest => (if x = k then 1 else 0) + liveCount rest k

/-- Removes one live Instrument on the key (the first occurrence). -/
def removeOne (l : List MdKey) (k : MdKey) : List MdKey :=
  match l with
  | [] => []
  | x :: rest => if x = k then rest else x :: removeOne rest k

/-- Subscription events on the global ref-count table: a Subscribe call, or the release
of one Instrument when its owning algo stops. -/
inductive SubOp
  | sub (k : MdKey)
  | unsub (k : MdKey)
  deriving DecidableEq

/-- Global subscription state: the ref-count table and the multiset (as a list) of live
Instruments, one key entry per live Instrument. -/
structure SubState where
  refs : MdRefs
  live : List MdKey
  deriving DecidableEq

/-- Modelled from the spec: Algo::Subscribe increments the global ref-count for the
(source, security) pair and creates a live Instrument on it; stopping the owning algo
releases each of its Instruments, decrementing the pair's ref-count. The bodies of
Algo::Subscribe and AlgoManager::Stop are not under src (only their declarations at
src lines 64 and 178-180). -/
def subStep (s : SubState) : SubOp → SubState
  | .sub k => { refs := incRef s.refs k, live := k :: s.live }
  | .unsub k => { refs := decRef s.refs k, live := removeOne s.live k }

/-- Runs a sequence of subscription events. -/
def subRun (s : SubState) : List SubOp → SubState
  | [] => s
  | op :: rest => subRun (subStep s op) rest

/-- Validity of an event sequence: an unsubscribe only ever releases an Instrument that
is actually live (an algo can only release Instruments it owns). -/
def validOps (s : SubState) : List SubOp → Bool
  | [] => true
  | SubOp.sub k :: rest => validOps (subStep s (.sub k)) rest
  | SubOp.unsub k :: rest =>
      decide (0 < liveCount s.live k) && validOps (subStep s (.unsub k)) rest

/-- Number of Subscribe events on the key in a sequence. -/
def countSubs (ops : List SubOp) (k : MdKey) : Nat :=
  match ops with
  | [] => 0
  | SubOp.sub k0 :: rest => (if k0 = k then 1 else 0) + countSubs rest k
  | SubOp.unsub _ :: rest => countSubs rest k

/-- Number of unsubscribe events on the key in a sequence. -/
def countUnsubs (ops : List SubOp) (k : MdKey) : Nat :=
  match ops with
  | [] => 0
  | SubOp.sub _ :: rest => countUnsubs rest k
  | SubOp.unsub k0 :: rest => (if k0 = k then 1 else 0) + countUnsubs rest k

/-- Initial subscription state: no entries, no live Instruments. -/
def initSub : SubState := { refs := [], live := [] }

/-- Embeds OrderSide as used at src line 35 (external enum from order.h, modelled with
its two sides). -/
inductive OrderSide
  | kBuy
  | kSell
  deriving DecidableEq

/-- Embeds SecurityTuple (src lines 31-37): data source, nullable security and
sub-account pointers (embedded as Option of an id), side defaulting to kBuy, quantity
defaulting to zero. -/
structure SecurityTuple where
  src : DataSrcId := 0
  sec : Option SecurityId := none
  acc : Option Nat := none
  side : OrderSide := OrderSide.kBuy
  qty : ℚ := 0
  deriving DecidableEq

/-- Embeds ParamDef::ValueScalar (src lines 40-42): a std::variant with the seven
alternatives std::string, const char*, bool, int64_t, int32_t, double, SecurityTuple,
in declaration order. -/
inductive ValueScalar
  | stringVal : String → ValueScalar
  | charPtrVal : String → ValueScalar
  | boolVal : Bool → ValueScalar
  | int64Val : Int → ValueScalar
  | int32Val : Int → ValueScalar
  | doubleVal : ℚ → ValueScalar
  | securityTupleVal : SecurityTuple → ValueScalar
  deriving DecidableEq

/-- Embeds ParamDef::ValueVector (src line 43): a vector of scalars. -/
abbrev ValueVector := List ValueScalar

/-- Embeds ParamDef::Value (src lines 44-46): a std::variant with the eight
alternatives std::string, const char*, bool, int64_t, int32_t, double, SecurityTuple,
ValueVector, in declaration order. -/
inductive Value
  | stringVal : String → Value
  | charPtrVal : String → Value
  | boolVal : Bool → Value
  | int64Val : Int → Value
  | int32Val : Int → Value
  | doubleVal : ℚ → Value
  | securityTupleVal : SecurityTuple → Value
  | vectorVal : ValueVector → Value
  deriving DecidableEq

/-- Alternative index of a Value, as std::variant index() reports it, following the
declaration order of src lines 44-46. -/
def Value.index : Value → Nat
  | .stringVal _ => 0
  | .charPtrVal _ => 1
  | .boolVal _ => 2
  | .int64Val _ => 3
  | .int32Val _ => 4
  | .doubleVal _ => 5
  | .securityTupleVal _ => 6
  | .vectorVal _ => 7

/-- Follows the words of the spec, as the refinement target of claim C6: the claim
says ParamDef::Value is a closed sum over exactly the seven alternatives string, bool,
int32, int64, double, security-tuple, and list-of-scalar. This predicate holds of a
Value exactly when it is one of those seven alternatives. -/
def specSevenAlternatives (v : Value) : Prop :=
  (∃ s, v = Value.stringVal s) ∨ (∃ b, v = Value.boolVal b) ∨
  (∃ n, v = Value.int32Val n) ∨ (∃ n, v = Value.int64Val n) ∨
  (∃ d, v = Value.doubleVal d) ∨ (∃ t, v = Value.securityTupleVal t) ∨
  (∃ l, v = Value.vectorVal l)

/-- Embeds ParamDef (src lines 39-53): name, default value, required flag, bounds and
display precision, with the in-class initializers of the source. -/
structure ParamDef where
  name : String
  default_value : Value
  required : Bool := false
  min_value : ℚ := 0
  max_value : ℚ := 0
  precision : Int := 0

/-- Embeds ParamDefs (src line 55). -/
abbrev ParamDefs := List ParamDef

/-- Embeds Algo::ParamMap (src line 61): a map from parameter name to Value, as an
association list. -/
abbrev ParamMap := List (String × Value)

/-- Embeds MarketData opaquely (external type from market_data.h, out of scope; only
its identity matters to the verified claims). -/
structure MarketData where
  snapshotId : Nat
  deriving DecidableEq

/-- Embeds Instrument (src lines 101-142): owning algo (pointer embedded as an id),
security id, source, nullable cached market-data pointer, active orders, the four
stored quantities and the instrument id, with the in-class initializers of the
source (md_ = nullptr, quantities = 0). -/
structure Instrument where
  algo_ : Nat
  sec_ : SecurityId
  src_ : DataSrcId
  md_ : Option MarketData := none
  active_orders_ : List Nat := []
  bought_qty_ : ℚ := 0
  sold_qty_ : ℚ := 0
  outstanding_buy_qty_ : ℚ := 0
  outstanding_sell_qty_ : ℚ := 0
  id_ : Nat := 0
  deriving DecidableEq

/-- Embeds the Instrument constructor (src lines 104-105): sets algo_, sec_ and src_
and leaves every other member at its in-class initializer, in particular
md_ = nullptr. -/
def Instrument.construct (algo : Nat) (sec : SecurityId) (src : DataSrcId) :
    Instrument :=
  { algo_ := algo, sec_ := sec, src_ := src }

/-- Embeds Instrument::md (src line 109): return *md_. Dereferencing the null pointer
is modelled by returning none; under the precondition that a snapshot is cached the
result is that snapshot. -/
def Instrument.md (i : Instrument) : Option MarketData :=
  i.md_

/-- Embeds Instrument::bought_qty (src line 111). -/
def Instrument.bought_qty (i : Instrument) : ℚ := i.bought_qty_

/-- Embeds Instrument::sold_qty (src line 112). -/
def Instrument.sold_qty (i : Instrument) : ℚ := i.sold_qty_

/-- Embeds Instrument::outstanding_buy_qty (src line 113). -/
def Instrument.outstanding_buy_qty (i : Instrument) : ℚ := i.outstanding_buy_qty_

/-- Embeds Instrument::outstanding_sell_qty (src line 114). -/
def Instrument.outstanding_sell_qty (i : Instrument) : ℚ := i.outstanding_sell_qty_

/-- Embeds Instrument::net_qty (src line 115): bought_qty_ - sold_qty_. -/
def Instrument.net_qty (i : Instrument) : ℚ := i.bought_qty_ - i.sold_qty_

/-- Embeds Instrument::total_qty (src line 116): bought_qty_ + sold_qty_. -/
def Instrument.total_qty (i : Instrument) : ℚ := i.bought_qty_ + i.sold_qty_

/-- Embeds Instrument::net_outstanding_qty (src lines 117-119). -/
def Instrument.net_outstanding_qty (i : Instrument) : ℚ :=
  i.outstanding_buy_qty_ - i.outstanding_sell_qty_

/-- Embeds Instrument::total_outstanding_qty (src lines 120-122). -/
def Instrument.total_outstanding_qty (i : Instrument) : ℚ :=
  i.outstanding_buy_qty_ + i.outstanding_sell_qty_

/-- Embeds Instrument::total_exposure (src lines 123-125):
total_qty() + total_outstanding_qty(). -/
def Instrument.total_exposure (i : Instrument) : ℚ :=
  i.total_qty + i.total_outstanding_qty

/-- Outcome of invoking a C++ member function, seen from the caller: a normal return
value, an exception propagated to the caller, or termination of the process. -/
inductive CallOutcome (E A : Type)
  | normal : A → CallOutcome E A
  | propagated : E → CallOutcome E A
  | terminated : CallOutcome E A
  deriving DecidableEq

/-- Embeds the C++ call semantics of a virtual member function with respect to
exception propagation: the body either returns a value or raises an exception;
through a declaration marked noexcept a raised exception calls std::terminate and
never reaches the caller, while through a declaration without noexcept it
propagates. -/
def cppInvoke {I E A : Type} (isNoexcept : Bool) (body : I → Except E A) (x : I) :
    CallOutcome E A :=
  match body x with
  | .ok a => .normal a
  | .error e => if isNoexcept then .terminated else .propagated e

/-- The seven required strategy overrides of Algo (src lines 70-78). -/
inductive RequiredOverride
  | onStart
  | onModify
  | onStop
  | onMarketTrade
  | onMarketQuote
  | onConfirmation
  | getParamDefs
  deriving DecidableEq

/-- Embeds the noexcept specifiers on the pure virtual declarations at src lines
70-78: each of the seven required overrides is declared noexcept there. -/
def noexceptSpecOf : RequiredOverride → Bool
  | .onStart => true
  | .onModify => true
  | .onStop => true
  | .onMarketTrade => true
  | .onMarketQuote => true
  | .onConfirmation => true
  | .getParamDefs => true

/-- Events an Algo can receive: a Stop request, or market-data / confirmation
events (which do not touch the active flag or deliver OnStop). -/
inductive AlgoEv
  | stopCmd
  | mdTrade
  | mdQuote
  | confirm
  deriving DecidableEq

/-- Lifecycle state of one Algo: the active flag (src line 94) and the number of
OnStop invocations delivered so far. -/
structure AlgoState where
  is_active : Bool
  onStopCount : Nat
  deriving DecidableEq

/-- Embeds the in-class initializer bool is_active_ = true (src line 94): an algo
starts active, with no OnStop delivered yet. -/
def initAlgo : AlgoState := { is_active := true, onStopCount := 0 }

/-- Modelled from the spec: Stop marks the algo inactive, and OnStop is delivered
exactly for the transition from active to inactive; once inactive, further events are
no-ops on this state. The body of Algo::Stop is not under src (only its declaration
at src line 65 and the is_active_ member at line 94). -/
def algoStep (s : AlgoState) : AlgoEv → AlgoState
  | .stopCmd =>
      if s.is_active then { is_active := false, onStopCount := s.onStopCount + 1 }
      else s
  | _ => s

/-- Runs a sequence of events through one algo's lifecycle state. -/
def algoRun (s : AlgoState) : List AlgoEv → AlgoState
  | [] => s
  | e :: rest => algoRun (algoStep s e) rest

/-- One callback task: the algo it belongs to and a task id. -/
structure Task where
  algo : Nat
  tid : Nat
  deriving DecidableEq

/-- Modelled from the spec: the scheduler state around AlgoManager::strands_ (member
declaration at src lines 207-218; the posting and execution code is not under src).
Per strand: a FIFO queue of posted callback tasks, the at-most-one task currently
executing, and the histories of posted and started tasks in order. -/
structure Sched where
  queue : Nat → List Task
  running : Nat → Option Task
  posted : Nat → List Task
  started : Nat → List Task

/-- Initial scheduler state: all strands empty and idle. -/
def initSched : Sched :=
  { queue := fun _ => []
    running := fun _ => none
    posted := fun _ => []
    started := fun _ => [] }

/-- Modelled from the spec: one step of the concurrent scheduler. pin assigns each
algo the single strand it is pinned to for its whole lifetime. A post step may occur
at any time, from any adapter thread, for any task — concurrency of market-data
updates and confirmations is the arbitrary interleaving of steps. A strand starts its
front queued task only when idle, and must finish the running task before starting
another; started tasks are recorded in order. -/
inductive SchedStep (pin : Nat → Nat) : Sched → Sched → Prop
  | post (σ : Sched) (t : Task) :
      SchedStep pin σ
        { σ with
          queue := Function.update σ.queue (pin t.algo)
            (σ.queue (pin t.algo) ++ [t])
          posted := Function.update σ.posted (pin t.algo)
            (σ.posted (pin t.algo) ++ [t]) }
  | start (σ : Sched) (s : Nat) (t : Task) (rest : List Task)
      (hidle : σ.running s = none) (hq : σ.queue s = t :: rest) :
      SchedStep pin σ
        { σ with
          queue := Function.update σ.queue s rest
          running := Function.update σ.running s (some t)
          started := Function.update σ.started s (σ.started s ++ [t]) }
  | finish (σ : Sched) (s : Nat) (t : Task) (hrun : σ.running s = some t) :
      SchedStep pin σ { σ with running := Function.update σ.running s none }

/-- Reachability of a scheduler state from the initial state. -/
def SchedReach (pin : Nat → Nat) (σ : Sched) : Prop :=
  Relation.ReflTransGen (SchedStep pin) initSched σ

/-- Scheduler invariant: queued, running and posted tasks sit on the strand their algo
is pinned to, and per strand the posted history is the started history followed by the
still-queued tasks (FIFO). -/
structure SchedInv (pin : Nat → Nat) (σ : Sched) : Prop where
  queue_pin : ∀ s t, t ∈ σ.queue s → pin t.algo = s
  run_pin : ∀ s t, σ.running s = some t → pin t.algo = s
  posted_pin : ∀ s t, t ∈ σ.posted s → pin t.algo = s
  fifo : ∀ s, σ.posted s = σ.started s ++ σ.queue s

/-- Concrete pin function for exercising the scheduler model: every algo on
strand 3. -/
def c1Pin : Nat → Nat := fun _ => 3

/-- Concrete callback task of algo 7. -/
def c1Task : Task := { algo := 7, tid := 0 }

/-- Scheduler state reached from the initial state by one post step of c1Task. -/
def c1Sched : Sched :=
  { initSched with
    queue := Function.update initSched.queue (c1Pin c1Task.algo)
      (initSched.queue (c1Pin c1Task.algo) ++ [c1Task])
    posted := Function.update initSched.posted (c1Pin c1Task.algo)
      (initSched.posted (c1Pin c1Task.algo) ++ [c1Task]) }

/-- Concrete Instrument with quantities 3, 1, 2, 5, for exercising the quantity
lemmas. -/
def c5Inst : Instrument :=
  { algo_ := 1, sec_ := 2, src_ := 3, bought_qty_ := 3, sold_qty_ := 1,
    outstanding_buy_qty_ := 2, outstanding_sell_qty_ := 5 }

/-- Concrete Instrument whose market-data cache holds snapshot 7. -/
def c10Inst : Instrument :=
  { Instrument.construct 1 2 3 with md_ := some { snapshotId := 7 } }

/-! Theorems. Shared helper lemmas come first, then one theorem per claim, each with
its witness or counterexample where required. -/

theorem mdLookup_eq_zero_of_not_contains (m : MdRefs) (k : MdKey)
    (h : mdContains m k = false) : mdLookup m k = 0 := by
  induction m with
  | nil => rfl
  | cons e rest ih =>
    simp only [mdContains, Bool.or_eq_false_iff, decide_eq_false_iff_not] at h
    simp only [mdLookup, if_neg h.1]
    exact ih h.2

theorem mdLookup_append_zero (m : MdRefs) (p k : MdKey) :
    mdLookup (m ++ [(p, 0)]) k = mdLookup m k := by
  induction m with
  | nil =>
    simp only [List.nil_append, mdLookup]
    split <;> rfl
  | cons e rest ih =>
    simp only [List.cons_append, mdLookup]
    split
    · rfl
    · exact ih

theorem mdContains_append_self (m : MdRefs) (p : MdKey) (v : Nat) :
    mdContains (m ++ [(p, v)]) p = true := by
  induction m with
  | nil => simp [mdContains]
  | cons e rest ih => simp [mdContains, ih]

/-- Claim C3: AlgoManager::IsSubscribed(src, id) returns true if and only if the
ref-count recorded for the pair (src, id) is strictly greater than zero, a pair with
no recorded entry counting as zero. -/
theorem isSubscribed_iff_pos (m : MdRefs) (src : DataSrcId) (sid : SecurityId) :
    (IsSubscribed m src sid).1 = true ↔ 0 < mdLookup m (src, sid) := by
  unfold IsSubscribed mdIndex
  by_cases h : mdContains m (src, sid) = true
  · simp [h]
  · have h0 : mdContains m (src, sid) = false := by
      revert h; cases mdContains m (src, sid) <;> simp
    rw [mdLookup_eq_zero_of_not_contains m (src, sid) h0]
    simp [h0]

/-- Claim C9: a call to IsSubscribed leaves every observable ref-count unchanged (an
absent entry counting as zero), even though the map indexing inside it materializes a
fresh zero-valued entry for a pair never seen before. -/
theorem isSubscribed_frame (m : MdRefs) (src : DataSrcId) (sid : SecurityId) :
    (∀ k, mdLookup (IsSubscribed m src sid).2 k = mdLookup m k) ∧
    mdContains (IsSubscribed m src sid).2 (src, sid) = true := by
  unfold IsSubscribed mdIndex
  by_cases h : mdContains m (src, sid) = true
  · simp [h]
  · have h0 : mdContains m (src, sid) = false := by
      revert h; cases mdContains m (src, sid) <;> simp
    simp only [h0, Bool.false_eq_true, if_false]
    exact ⟨fun k => mdLookup_append_zero m (src, sid) k,
      mdContains_append_self m (src, sid) 0⟩

/-- Claim C4: the derived Instrument accessors are exactly the stated pure functions
of the four stored quantities: net_qty is bought minus sold, total_qty is bought plus
sold, net_outstanding_qty is outstanding-buy minus outstanding-sell,
total_outstanding_qty is outstanding-buy plus outstanding-sell, and total_exposure is
total_qty plus total_outstanding_qty exactly. -/
theorem instrument_derived_accessors (i : Instrument) :
    i.net_qty = i.bought_qty_ - i.sold_qty_ ∧
    i.total_qty = i.bought_qty_ + i.sold_qty_ ∧
    i.net_outstanding_qty = i.outstanding_buy_qty_ - i.outstanding_sell_qty_ ∧
    i.total_outstanding_qty = i.outstanding_buy_qty_ + i.outstanding_sell_qty_ ∧
    i.total_exposure = i.total_qty + i.total_outstanding_qty ∧
    i.total_exposure = (i.bought_qty_ + i.sold_qty_) +
      (i.outstanding_buy_qty_ + i.outstanding_sell_qty_) :=
  ⟨rfl, rfl, rfl, rfl, rfl, rfl⟩

/-- Claim C5: for an Instrument whose four stored quantities are all non-negative,
total_exposure is at least the absolute value of net_qty plus net_outstanding_qty. -/
theorem total_exposure_ge_abs_net (i : Instrument)
    (hb : 0 ≤ i.bought_qty_) (hs : 0 ≤ i.sold_qty_)
    (hob : 0 ≤ i.outstanding_buy_qty_) (hos : 0 ≤ i.outstanding_sell_qty_) :
    |i.net_qty + i.net_outstanding_qty| ≤ i.total_exposure := by
  simp only [Instrument.net_qty, Instrument.net_outstanding_qty,
    Instrument.total_exposure, Instrument.total_qty, Instrument.total_outstanding_qty]
  rw [abs_le]
  constructor <;> linarith

/-- Witness for C5 at the concrete Instrument c5Inst. -/
theorem total_exposure_ge_abs_net_witness :
    |c5Inst.net_qty + c5Inst.net_outstanding_qty| ≤ c5Inst.total_exposure :=
  total_exposure_ge_abs_net c5Inst (by norm_num [c5Inst]) (by norm_num [c5Inst])
    (by norm_num [c5Inst]) (by norm_num [c5Inst])

/-- Counterexample for C6: the Value holding a const char pointer (variant alternative
index 1 in the source declaration) is none of the seven alternatives the claim lists,
so ParamDef::Value is not a sum over exactly those seven alternatives. -/
theorem value_seven_alternatives_counterexample :
    ¬ specSevenAlternatives (Value.charPtrVal "x") := by
  simp [specSevenAlternatives]

/-- Claim C6 as amended: ParamDef::Value is a closed sum over exactly eight
alternatives — std::string, const char*, bool, int64, int32, double, security-tuple
and list-of-scalar (the scalar union being the same minus the list case) — so every
value a ParamMap can hold is of one of exactly these eight shapes, exhaustive matching
over them covers all cases, and all eight variant indices 0 through 7 are realized. -/
theorem value_eight_alternatives :
    (∀ v : Value,
      (∃ s, v = Value.stringVal s) ∨ (∃ s, v = Value.charPtrVal s) ∨
      (∃ b, v = Value.boolVal b) ∨ (∃ n, v = Value.int64Val n) ∨
      (∃ n, v = Value.int32Val n) ∨ (∃ d, v = Value.doubleVal d) ∨
      (∃ t, v = Value.securityTupleVal t) ∨ (∃ l, v = Value.vectorVal l)) ∧
    (∀ j : Fin 8, ∃ v : Value, Value.index v = j.val) := by
  constructor
  · intro v
    cases v <;> simp
  · intro j
    fin_cases j
    · exact ⟨Value.stringVal "", rfl⟩
    · exact ⟨Value.charPtrVal "", rfl⟩
    · exact ⟨Value.boolVal true, rfl⟩
    · exact ⟨Value.int64Val 0, rfl⟩
    · exact ⟨Value.int32Val 0, rfl⟩
    · exact ⟨Value.doubleVal 0, rfl⟩
    · exact ⟨Value.securityTupleVal {}, rfl⟩
    · exact ⟨Value.vectorVal [], rfl⟩

/-- Claim C10: Instrument::md() is well-defined only when a market-data snapshot has
been cached: a freshly constructed Instrument has md_ null and md() dereferences it
(modelled as none), while under the precondition that md_ holds a snapshot, md()
returns that snapshot and the null branch is unreachable. -/
theorem md_requires_cached_snapshot :
    (∀ a sec src, (Instrument.construct a sec src).md = none) ∧
    (∀ (i : Instrument) (m : MarketData), i.md_ = some m → i.md = some m) :=
  ⟨fun _ _ _ => rfl, fun _ _ h => h⟩

/-- Witness for C10: an Instrument whose cache holds snapshot 7 yields it from md. -/
theorem md_requires_cached_snapshot_witness :
    c10Inst.md = some { snapshotId := 7 } :=
  md_requires_cached_snapshot.2 c10Inst { snapshotId := 7 } rfl

/-- Claim C7: every required strategy override is declared noexcept (src lines 70-78),
so invoking any of them under the embedded C++ call semantics either returns normally
or terminates the process; no exception is ever propagated across the callback
boundary to the caller. -/
theorem callbacks_never_propagate {I E A : Type} (o : RequiredOverride)
    (body : I → Except E A) (x : I) :
    (∃ a, cppInvoke (noexceptSpecOf o) body x = CallOutcome.normal a) ∨
    cppInvoke (noexceptSpecOf o) body x = CallOutcome.terminated := by
  cases hb : body x with
  | ok a => exact Or.inl ⟨a, by cases o <;> simp [cppInvoke, noexceptSpecOf, hb]⟩
  | error e => exact Or.inr (by cases o <;> simp [cppInvoke, noexceptSpecOf, hb])

theorem algoRun_onStopCount (evs : List AlgoEv) : ∀ s : AlgoState,
    (algoRun s evs).onStopCount =
      s.onStopCount +
        (if s.is_active = true ∧ AlgoEv.stopCmd ∈ evs then 1 else 0) := by
  induction evs with
  | nil => intro s; simp [algoRun]
  | cons e rest ih =>
    intro s
    cases e with
    | stopCmd =>
      by_cases ha : s.is_active = true
      · simp [algoRun, algoStep, ha, ih]
      · simp [algoRun, algoStep, ha, ih]
    | mdTrade => simp [algoRun, algoStep, ih]
    | mdQuote => simp [algoRun, algoStep, ih]
    | confirm => simp [algoRun, algoStep, ih]

/-- Claim C8: stopping an algo is idempotent with respect to OnStop: processing any
event sequence from the initial active state delivers OnStop exactly once when a Stop
occurs in it (in particular, two Stop requests yield one OnStop) and zero times when
no Stop occurs (OnStop only after Stop); moreover a second Stop applied after a first
one changes nothing. -/
theorem stop_idempotent (evs : List AlgoEv) :
    (algoRun initAlgo evs).onStopCount =
      (if AlgoEv.stopCmd ∈ evs then 1 else 0) ∧
    (∀ s : AlgoState,
      algoStep (algoStep s AlgoEv.stopCmd) AlgoEv.stopCmd =
        algoStep s AlgoEv.stopCmd) := by
  constructor
  · rw [algoRun_onStopCount]
    simp [initAlgo]
  · intro s
    by_cases h : s.is_active = true <;> simp [algoStep, h]

theorem mdLookup_incRef (m : MdRefs) (k k2 : MdKey) :
    mdLookup (incRef m k) k2 =
      if k2 = k then mdLookup m k2 + 1 else mdLookup m k2 := by
  induction m with
  | nil =>
    by_cases h : k2 = k
    · subst h; simp [incRef, mdLookup]
    · simp [incRef, mdLookup, h, Ne.symm h]
  | cons e rest ih =>
    by_cases h1 : e.1 = k
    · by_cases h2 : k2 = k
      · subst h2
        simp [incRef, mdLookup, h1]
      · have hk : ¬ k = k2 := Ne.symm h2
        simp [incRef, mdLookup, h1, h2, hk]
    · by_cases h3 : e.1 = k2
      · have h2 : ¬ k2 = k := fun hh => h1 (h3.trans hh)
        simp [incRef, mdLookup, h1, h3, h2]
      · simp [incRef, mdLookup, h1, h3, ih]

theorem mdLookup_decRef (m : MdRefs) (k k2 : MdKey) :
    mdLookup (decRef m k) k2 =
      if k2 = k then mdLookup m k2 - 1 else mdLookup m k2 := by
  induction m with
  | nil =>
    by_cases h : k2 = k
    · subst h; simp [decRef, mdLookup]
    · simp [decRef, mdLookup, h, Ne.symm h]
  | cons e rest ih =>
    by_cases h1 : e.1 = k
    · by_cases h2 : k2 = k
      · subst h2
        simp [decRef, mdLookup, h1]
      · have hk : ¬ k = k2 := Ne.symm h2
        simp [decRef, mdLookup, h1, h2, hk]
    · by_cases h3 : e.1 = k2
      · have h2 : ¬ k2 = k := fun hh => h1 (h3.trans hh)
        simp [decRef, mdLookup, h1, h3, h2]
      · simp [decRef, mdLookup, h1, h3, ih]

theorem liveCount_cons (x : MdKey) (l : List MdKey) (k : MdKey) :
    liveCount (x :: l) k = (if x = k then 1 else 0) + liveCount l k :=
  rfl

theorem liveCount_removeOne_ne (l : List MdKey) (k k2 : MdKey) (h : k2 ≠ k) :
    liveCount (removeOne l k) k2 = liveCount l k2 := by
  induction l with
  | nil => rfl
  | cons x rest ih =>
    by_cases hx : x = k
    · simp [removeOne, liveCount, hx, Ne.symm h]
    · simp [removeOne, liveCount, hx, ih]

theorem liveCount_removeOne_self (l : List MdKey) (k : MdKey)
    (h : 0 < liveCount l k) :
    liveCount (removeOne l k) k = liveCount l k - 1 := by
  induction l with
  | nil => simp [liveCount] at h
  | cons x rest ih =>
    by_cases hx : x = k
    · simp [removeOne, liveCount, hx]
    · simp only [liveCount, if_neg hx, Nat.zero_add] at h
      simp [removeOne, liveCount, hx, ih h]

theorem subRun_spec (ops : List SubOp) : ∀ s : SubState,
    validOps s ops = true →
    (∀ k, mdLookup s.refs k = liveCount s.live k) →
    ∀ k, mdLookup (subRun s ops).refs k = liveCount (subRun s ops).live k ∧
      liveCount (subRun s ops).live k + countUnsubs ops k =
        liveCount s.live k + countSubs ops k := by
  induction ops with
  | nil =>
    intro s _ hs k
    exact ⟨hs k, by simp [subRun, countSubs, countUnsubs]⟩
  | cons op rest ih =>
    intro s hv hs k
    cases op with
    | sub k0 =>
      have hv2 : validOps (subStep s (.sub k0)) rest = true := hv
      have hs2 : ∀ j, mdLookup (subStep s (.sub k0)).refs j =
          liveCount (subStep s (.sub k0)).live j := by
        intro j
        simp only [subStep, mdLookup_incRef, liveCount_cons]
        by_cases hj : j = k0
        · subst hj; simp [hs j, Nat.add_comm]
        · have hj2 : ¬ k0 = j := Ne.symm hj
          simp [hj, hj2, hs j]
      obtain ⟨h1, h2⟩ := ih (subStep s (.sub k0)) hv2 hs2 k
      refine ⟨h1, ?_⟩
      have hrun : subRun s (SubOp.sub k0 :: rest) =
          subRun (subStep s (.sub k0)) rest := rfl
      rw [hrun]
      by_cases hj : k0 = k
      · subst hj
        have hcs : countSubs (SubOp.sub k0 :: rest) k0 =
            1 + countSubs rest k0 := by simp [countSubs]
        have hcu : countUnsubs (SubOp.sub k0 :: rest) k0 =
            countUnsubs rest k0 := rfl
        have hstep : liveCount (subStep s (.sub k0)).live k0 =
            1 + liveCount s.live k0 := by simp [subStep, liveCount]
        rw [hcs, hcu]
        rw [hstep] at h2
        omega
      · have hcs : countSubs (SubOp.sub k0 :: rest) k = countSubs rest k := by
          simp [countSubs, hj]
        have hcu : countUnsubs (SubOp.sub k0 :: rest) k = countUnsubs rest k := rfl
        have hstep : liveCount (subStep s (.sub k0)).live k =
            liveCount s.live k := by simp [subStep, liveCount, hj]
        rw [hcs, hcu]
        rw [hstep] at h2
        omega
    | unsub k0 =>
      have hv0 : decide (0 < liveCount s.live k0) = true ∧
          validOps (subStep s (.unsub k0)) rest = true := by
        simpa [validOps, Bool.and_eq_true] using hv
      have hpos : 0 < liveCount s.live k0 := of_decide_eq_true hv0.1
      have hv2 := hv0.2
      have hs2 : ∀ j, mdLookup (subStep s (.unsub k0)).refs j =
          liveCount (subStep s (.unsub k0)).live j := by
        intro j
        simp only [subStep, mdLookup_decRef]
        by_cases hj : j = k0
        · subst hj
          rw [liveCount_removeOne_self s.live j hpos, hs j]
          simp
        · rw [liveCount_removeOne_ne s.live k0 j hj, hs j]
          simp [hj]
      obtain ⟨h1, h2⟩ := ih (subStep s (.unsub k0)) hv2 hs2 k
      refine ⟨h1, ?_⟩
      have hrun : subRun s (SubOp.unsub k0 :: rest) =
          subRun (subStep s (.unsub k0)) rest := rfl
      rw [hrun]
      by_cases hj : k0 = k
      · subst hj
        have hcs : countSubs (SubOp.unsub k0 :: rest) k0 = countSubs rest k0 := rfl
        have hcu : countUnsubs (SubOp.unsub k0 :: rest) k0 =
            1 + countUnsubs rest k0 := by simp [countUnsubs]
        have hstep : liveCount (subStep s (.unsub k0)).live k0 =
            liveCount s.live k0 - 1 := liveCount_removeOne_self s.live k0 hpos
        rw [hcs, hcu]
        rw [hstep] at h2
        omega
      · have hj2 : k ≠ k0 := Ne.symm hj
        have hcs : countSubs (SubOp.unsub k0 :: rest) k = countSubs rest k := rfl
        have hcu : countUnsubs (SubOp.unsub k0 :: rest) k =
            countUnsubs rest k := by simp [countUnsubs, hj]
        have hstep : liveCount (subStep s (.unsub k0)).live k =
            liveCount s.live k := liveCount_removeOne_ne s.live k0 k hj2
        rw [hcs, hcu]
        rw [hstep] at h2
        omega

/-- Claim C2: after any valid sequence of subscribe and unsubscribe (via algo stop)
events, the global ref-count stored for each (source, security) pair equals the number
of live Instruments subscribed to it, which equals the number of subscribes minus the
number of unsubscribes on that pair. -/
theorem refcount_correct (ops : List SubOp) (h : validOps initSub ops = true)
    (k : MdKey) :
    mdLookup (subRun initSub ops).refs k = liveCount (subRun initSub ops).live k ∧
    countUnsubs ops k ≤ countSubs ops k ∧
    mdLookup (subRun initSub ops).refs k =
      countSubs ops k - countUnsubs ops k := by
  obtain ⟨h1, h2⟩ := subRun_spec ops initSub h (fun _ => rfl) k
  have h0 : liveCount initSub.live k = 0 := rfl
  exact ⟨h1, by omega, by omega⟩

/-- Witness for C2: two subscribes then one unsubscribe on the pair (1, 2) leave a
ref-count of one, equal to the one remaining live Instrument. -/
theorem refcount_correct_witness :
    mdLookup (subRun initSub
        [SubOp.sub (1, 2), SubOp.sub (1, 2), SubOp.unsub (1, 2)]).refs (1, 2) =
      liveCount (subRun initSub
        [SubOp.sub (1, 2), SubOp.sub (1, 2), SubOp.unsub (1, 2)]).live (1, 2) ∧
    countUnsubs [SubOp.sub (1, 2), SubOp.sub (1, 2), SubOp.unsub (1, 2)] (1, 2) ≤
      countSubs [SubOp.sub (1, 2), SubOp.sub (1, 2), SubOp.unsub (1, 2)] (1, 2) ∧
    mdLookup (subRun initSub
        [SubOp.sub (1, 2), SubOp.sub (1, 2), SubOp.unsub (1, 2)]).refs (1, 2) =
      countSubs [SubOp.sub (1, 2), SubOp.sub (1, 2), SubOp.unsub (1, 2)] (1, 2) -
        countUnsubs [SubOp.sub (1, 2), SubOp.sub (1, 2), SubOp.unsub (1, 2)] (1, 2) :=
  refcount_correct [SubOp.sub (1, 2), SubOp.sub (1, 2), SubOp.unsub (1, 2)]
    (by decide) (1, 2)

theorem schedInv_init (pin : Nat → Nat) : SchedInv pin initSched := by
  constructor
  · intro s t ht; simp [initSched] at ht
  · intro s t ht; simp [initSched] at ht
  · intro s t ht; simp [initSched] at ht
  · intro s; simp [initSched]

theorem schedInv_step (pin : Nat → Nat) {σ σ2 : Sched}
    (h : SchedStep pin σ σ2) (hi : SchedInv pin σ) : SchedInv pin σ2 := by
  cases h with
  | post t =>
    constructor
    · intro s u hu
      simp only [Function.update_apply] at hu
      by_cases hs : s = pin t.algo
      · subst hs
        rw [if_pos rfl] at hu
        rcases List.mem_append.mp hu with h1 | h1
        · exact hi.queue_pin _ u h1
        · rw [List.mem_singleton] at h1
          subst h1
          rfl
      · rw [if_neg hs] at hu
        exact hi.queue_pin _ u hu
    · exact hi.run_pin
    · intro s u hu
      simp only [Function.update_apply] at hu
      by_cases hs : s = pin t.algo
      · subst hs
        rw [if_pos rfl] at hu
        rcases List.mem_append.mp hu with h1 | h1
        · exact hi.posted_pin _ u h1
        · rw [List.mem_singleton] at h1
          subst h1
          rfl
      · rw [if_neg hs] at hu
        exact hi.posted_pin _ u hu
    · intro s
      simp only [Function.update_apply]
      by_cases hs : s = pin t.algo
      · rw [if_pos hs, if_pos hs, hs, hi.fifo (pin t.algo), List.append_assoc]
      · rw [if_neg hs, if_neg hs]
        exact hi.fifo s
  | start s0 t rest hidle hq =>
    constructor
    · intro s u hu
      simp only [Function.update_apply] at hu
      by_cases hs : s = s0
      · subst hs
        rw [if_pos rfl] at hu
        exact hi.queue_pin s u (by rw [hq]; exact List.mem_cons_of_mem t hu)
      · rw [if_neg hs] at hu
        exact hi.queue_pin _ u hu
    · intro s u hu
      simp only [Function.update_apply] at hu
      by_cases hs : s = s0
      · subst hs
        rw [if_pos rfl] at hu
        have ht : t = u := Option.some.inj hu
        subst ht
        exact hi.queue_pin s t (by rw [hq]; exact List.mem_cons_self t rest)
      · rw [if_neg hs] at hu
        exact hi.run_pin _ u hu
    · exact hi.posted_pin
    · intro s
      simp only [Function.update_apply]
      by_cases hs : s = s0
      · rw [if_pos hs, if_pos hs, hs, hi.fifo s0, hq, List.append_assoc,
          List.singleton_append]
      · rw [if_neg hs, if_neg hs]
        exact hi.fifo s
  | finish s0 t hrun =>
    constructor
    · exact hi.queue_pin
    · intro s u hu
      simp only [Function.update_apply] at hu
      by_cases hs : s = s0
      · rw [if_pos hs] at hu
        cases hu
      · rw [if_neg hs] at hu
        exact hi.run_pin _ u hu
    · exact hi.posted_pin
    · exact hi.fifo

theorem schedInv_reach (pin : Nat → Nat) {σ : Sched} (h : SchedReach pin σ) :
    SchedInv pin σ := by
  induction h with
  | refl => exact schedInv_init pin
  | tail _ hstep ih => exact schedInv_step pin hstep ih

/-- Claim C1: in every reachable scheduler state, no two callback tasks of the same
algo are active concurrently — two running tasks with the same algo are the same task
on the same strand; every task of an algo has been posted only to the single strand
the algo is pinned to; and per strand the started history is an initial segment of the
posted history, so callbacks execute one at a time in post order, even under arbitrary
interleaving of posts from multiple adapter threads. -/
theorem algo_callbacks_serialized (pin : Nat → Nat) (σ : Sched)
    (h : SchedReach pin σ) :
    (∀ s1 s2 t1 t2, σ.running s1 = some t1 → σ.running s2 = some t2 →
      t1.algo = t2.algo → s1 = s2 ∧ t1 = t2) ∧
    (∀ s t, t ∈ σ.posted s → pin t.algo = s) ∧
    (∀ s, ∃ pending, σ.posted s = σ.started s ++ pending) := by
  have hi := schedInv_reach pin h
  refine ⟨?_, hi.posted_pin, fun s => ⟨σ.queue s, hi.fifo s⟩⟩
  intro s1 s2 t1 t2 h1 h2 halgo
  have e1 := hi.run_pin s1 t1 h1
  have e2 := hi.run_pin s2 t2 h2
  have hs : s1 = s2 := by rw [← e1, ← e2, halgo]
  subst hs
  rw [h1] at h2
  exact ⟨rfl, Option.some.inj h2⟩

/-- Witness for C1 at the concrete state c1Sched, reached by posting one task of algo
7 onto its pinned strand from the initial state. -/
theorem algo_callbacks_serialized_witness :
    (∀ s1 s2 t1 t2, c1Sched.running s1 = some t1 → c1Sched.running s2 = some t2 →
      t1.algo = t2.algo → s1 = s2 ∧ t1 = t2) ∧
    (∀ s t, t ∈ c1Sched.posted s → c1Pin t.algo = s) ∧
    (∀ s, ∃ pending, c1Sched.posted s = c1Sched.started s ++ pending) :=
  algo_callbacks_serialized c1Pin c1Sched
    (Relation.ReflTransGen.single (SchedStep.post initSched c1Task))

end Opentrade
